import Mathlib

/-!
Verification of the disksense bounded-depth disk-usage scanner
(src/src-tauri/src/lib.rs) against its natural-language specification.

The filesystem is modelled as a pure tree (`FS`); the scanner's Rust
functions (`scan_directory`, `fast_scan`, `comprehensive_scan`,
`is_large_directory`, `estimate_dir_size`, `estimate_item_count`,
`emit_progress`, `get_windows_drives`, `get_unix_drives`) are translated
into Lean functions over that tree.  The shared atomic counter
`processed_items` becomes an explicit counter threaded through the scan
(rayon's data-parallel fan-out is serialized in directory-entry order;
the counter values each worker observes are the fetch_add results, which
the sequential model reproduces).  Emitted `scan-progress` events are
collected into an explicit trace list.  `u64`/`usize` become `Nat`
(no arithmetic in the scanner can overflow 64 bits on the inputs the
claims concern, and Rust's `saturating_sub` coincides with `Nat`
subtraction); the `f32` percentage and the `f64` sampling average are
modelled as exact rationals / floored integer division.
-/

/-- A filesystem subtree.  `file len` is a regular file of `len` bytes;
`dir metaLen entries` is a listable directory whose own
`std::fs::metadata(..).len()` is `metaLen` and whose immediate entries are
`entries` (name, subtree); `unreadable metaLen` is a directory for which
`stat` succeeds (so `is_dir()` is true and `metadata().len()` is
`metaLen`) but every attempt to list it (`read_dir`, `WalkDir`,
`fs_extra::dir::get_size`) fails. -/
inductive FS where
  | file (len : Nat)
  | dir (metaLen : Nat) (entries : List (String × FS))
  | unreadable (metaLen : Nat)

/-- `Path::is_dir()`: true for both listable and unlistable directories. -/
def FS.isDir : FS → Bool
  | .file _ => false
  | .dir _ _ => true
  | .unreadable _ => true

/-- `Path::is_file()`. -/
def FS.isFile : FS → Bool
  | .file _ => true
  | _ => false

/-- `std::fs::read_dir`: the immediate entries, or failure. -/
def FS.readDir : FS → Option (List (String × FS))
  | .file _ => none
  | .dir _ es => some es
  | .unreadable _ => none

/-- `std::fs::metadata(path).len()` (always succeeds in the model:
`stat` works even on directories that cannot be listed). -/
def FS.metadataLen : FS → Nat
  | .file len => len
  | .dir m _ => m
  | .unreadable m => m

mutual
/-- The exact recursive byte total of a subtree: the sum of the lengths of
all files below it, hidden entries included.  This is the value
`fs_extra::dir::get_size` returns when it succeeds. -/
def subtreeTotal : FS → Nat
  | .file len => len
  | .dir _ es => subtreeTotalL es
  | .unreadable _ => 0

def subtreeTotalL : List (String × FS) → Nat
  | [] => 0
  | (_, f) :: t => subtreeTotal f + subtreeTotalL t
end

mutual
/-- Whether every directory in the subtree can be listed, i.e. whether
`fs_extra::dir::get_size` succeeds on it. -/
def readableTree : FS → Bool
  | .file _ => true
  | .dir _ es => readableTreeL es
  | .unreadable _ => false

def readableTreeL : List (String × FS) → Bool
  | [] => true
  | (_, f) :: t => readableTree f && readableTreeL t
end

/-- Modelled from the spec: `fs_extra::dir::get_size(path)` as used at its
call sites (`match get_size(path) { Ok(s) => s, Err(_) => 0 }`) — the
crate is a dependency whose source is not in the repository; per the
spec's Size Estimator it is the "exact byte sum (exhaustive walk)", and
it returns an error (mapped to 0 by the caller) as soon as any directory
of the subtree cannot be listed. -/
def getSizeD (fs : FS) : Nat :=
  if readableTree fs then subtreeTotal fs else 0

/-- Leaf-name test for hidden entries: `name.starts_with(".")`. -/
def hiddenName (s : String) : Bool :=
  match s.data with
  | [] => false
  | c :: _ => c = '.'

/-- `Path::join`: paths are composed by joining entry names onto the
canonical root (separator fixed to "/" in the model). -/
def pathJoin (p n : String) : String := p ++ "/" ++ n

/-- The `DiskItem` tree node returned by the scanner:
`{ name, path, size, is_dir, children : Option<Vec<DiskItem>> }`. -/
inductive DiskItem where
  | mk (name : String) (path : String) (size : Nat) (is_dir : Bool)
       (children : Option (List DiskItem))

def DiskItem.name : DiskItem → String
  | .mk n _ _ _ _ => n

def DiskItem.path : DiskItem → String
  | .mk _ p _ _ _ => p

def DiskItem.size : DiskItem → Nat
  | .mk _ _ s _ _ => s

def DiskItem.is_dir : DiskItem → Bool
  | .mk _ _ _ d _ => d

def DiskItem.children : DiskItem → Option (List DiskItem)
  | .mk _ _ _ _ c => c

/-- The children sequence, empty when the `children` field is absent. -/
def DiskItem.childrenList (d : DiskItem) : List DiskItem :=
  d.children.getD []

/-- Sum of the `size` fields of a list of nodes. -/
def sumSizes (l : List DiskItem) : Nat := (l.map DiskItem.size).sum

/-- The comparator `|a, b| b.size.cmp(&a.size)`: children are sorted by
`size` descending.  (Rust's `sort_by` is a stable sort; ties are resolved
by insertion order there and by `insertionSort`'s placement here — the
spec leaves tie order unspecified.) -/
def descBySize (a b : DiskItem) : Prop := b.size ≤ a.size

instance : DecidableRel descBySize := fun a b => Nat.decLe b.size a.size

instance : IsTotal DiskItem descBySize :=
  ⟨fun a b => Nat.le_total b.size a.size⟩

instance : IsTrans DiskItem descBySize :=
  ⟨fun _ _ _ h1 h2 => Nat.le_trans h2 h1⟩

/-- `children.sort_by(|a, b| b.size.cmp(&a.size))`. -/
def sortBySizeDesc (l : List DiskItem) : List DiskItem :=
  List.insertionSort descBySize l

/-- The `ScanProgress` event payload.  `percent` is an `f32` in the code;
it is modelled as the exact rational the code's formula denotes. -/
structure ScanProgress where
  current_path : String
  processed_items : Nat
  total_items : Nat
  percent : ℚ
  deriving DecidableEq

/-- The `ScanOptions` record. -/
structure ScanOptions where
  fast_mode : Bool
  skip_hidden : Bool

/-- `emit_progress`: percent is `processed / total * 100` when
`total > 0`, and `0.0` otherwise — no clamping is performed. -/
def mkProgress (path : String) (processed total : Nat) : ScanProgress :=
  { current_path := path
    processed_items := processed
    total_items := total
    percent := if total > 0 then (processed : ℚ) / (total : ℚ) * 100 else 0 }

/-- File-entry throttle: emit when `current % 100 == 0 || current < 100`. -/
def shouldEmitFile (current : Nat) : Bool :=
  current % 100 == 0 || current < 100

/-- Directory-entry throttle: emit when
`current % 20 == 0 || current < 100`. -/
def shouldEmitDir (current : Nat) : Bool :=
  current % 20 == 0 || current < 100

/-- `is_large_directory`: read up to 1000 immediate entries; large iff the
count reaches 1000.  A directory that cannot be listed is not large. -/
def isLargeDirectory (fs : FS) : Bool :=
  match fs.readDir with
  | some es => 1000 ≤ es.length
  | none => false

/-- `estimate_dir_size`: if the directory's own metadata length is
non-zero, return it; otherwise sum the metadata lengths of up to 100
immediate entries and extrapolate by the total entry count (capped at
10000).  The `f64` average is modelled as exact: `size * total / samples`
with floored division. -/
def estimateDirSize (fs : FS) : Nat :=
  let mSize := fs.metadataLen
  if mSize > 0 then mSize
  else
    let sample := (fs.readDir.getD []).take 100
    let size := (sample.map (fun e => FS.metadataLen e.2)).sum
    let sampleCount := sample.length
    let totalCount :=
      match fs.readDir with
      | some es => min es.length 10000
      | none => sampleCount
    if sampleCount > 0 && sampleCount < totalCount then
      size * totalCount / sampleCount
    else size

mutual
/-- `estimate_item_count`: 1 for a non-directory; the constant 5000 for a
large directory; otherwise 1 plus, per immediate entry, 1 plus a
recursive estimate for subdirectories when `max_depth > 0`, recursing
with depth 0 when `max_depth > 2` and `max_depth - 1` otherwise. -/
def estimateItemCount : FS → Nat → Nat
  | .file _, _ => 1
  | .unreadable _, _ => 1
  | .dir _ es, maxDepth =>
    if 1000 ≤ es.length then 5000
    else 1 + estimateItemCountL es maxDepth

def estimateItemCountL : List (String × FS) → Nat → Nat
  | [], _ => 0
  | (_, f) :: t, maxDepth =>
    1 + (if maxDepth > 0 && f.isDir then
           estimateItemCount f (if maxDepth > 2 then 0 else maxDepth - 1)
         else 0)
      + estimateItemCountL t maxDepth
end

/-- The file pass of `fast_scan`: walk the entries in order, skip hidden
names, and turn each plain file into a leaf node, incrementing the
counter and emitting a throttled progress event per file.  Returns the
file nodes, the counter after the pass, and the emitted events. -/
def fastFiles (dirPath : String) (total : Nat) (opts : ScanOptions) :
    List (String × FS) → Nat → List DiskItem × Nat × List ScanProgress
  | [], c => ([], c, [])
  | (n, f) :: t, c =>
    if opts.skip_hidden && hiddenName n then fastFiles dirPath total opts t c
    else if f.isFile then
      let current := c + 1
      let tr := if shouldEmitFile current then
          [mkProgress (pathJoin dirPath n) current total] else []
      let item := DiskItem.mk n (pathJoin dirPath n) f.metadataLen false none
      let r := fastFiles dirPath total opts t current
      (item :: r.1, r.2.1, tr ++ r.2.2)
    else fastFiles dirPath total opts t c

/-- The `max_depth == 0` branch of `fast_scan`: every subdirectory entry
becomes a leaf node with estimated size and empty children. -/
def fastLeaves (dirPath : String) (total : Nat) (opts : ScanOptions) :
    List (String × FS) → Nat → List DiskItem × Nat × List ScanProgress
  | [], c => ([], c, [])
  | (n, f) :: t, c =>
    if !f.isDir then fastLeaves dirPath total opts t c
    else if opts.skip_hidden && hiddenName n then fastLeaves dirPath total opts t c
    else
      let current := c + 1
      let tr := if shouldEmitDir current then
          [mkProgress (pathJoin dirPath n) current total] else []
      let item := DiskItem.mk n (pathJoin dirPath n) (estimateDirSize f) true (some [])
      let r := fastLeaves dirPath total opts t current
      (item :: r.1, r.2.1, tr ++ r.2.2)

mutual
/-- `fast_scan`: build the node for `dirPath`.  On a path whose
`read_dir` fails (a file or an unlistable directory) the initial root —
`size = 0`, `is_dir = true`, `children = Some([])` — is returned
unchanged.  Otherwise the file pass runs first, then the directory pass
(`max_depth > 0`: recurse or short-circuit large directories;
`max_depth == 0`: estimated leaves), then the combined children are
sorted by size descending and their sizes summed into the root. -/
def fastScan (name dirPath : String) (fs : FS) (maxDepth : Nat)
    (total : Nat) (opts : ScanOptions) (c : Nat) :
    DiskItem × Nat × List ScanProgress :=
  match fs with
  | .dir _ es =>
    let rf := fastFiles dirPath total opts es c
    if 0 < maxDepth then
      let rd := fastDirs dirPath maxDepth total opts es rf.2.1
      let sorted := sortBySizeDesc (rf.1 ++ rd.1)
      (DiskItem.mk name dirPath (sumSizes sorted) true (some sorted), rd.2.1, rf.2.2 ++ rd.2.2)
    else
      let rd := fastLeaves dirPath total opts es rf.2.1
      let sorted := sortBySizeDesc (rf.1 ++ rd.1)
      (DiskItem.mk name dirPath (sumSizes sorted) true (some sorted), rd.2.1, rf.2.2 ++ rd.2.2)
  | _ => (DiskItem.mk name dirPath 0 true (some []), c, [])

/-- The parallel directory pass of `fast_scan` (`max_depth > 0`),
serialized in entry order: skip non-directories and hidden names; per
directory increment the counter and emit a throttled event; a large
directory with `max_depth > 1` becomes an estimated leaf with empty
children, any other directory is scanned recursively at `max_depth - 1`. -/
def fastDirs (dirPath : String) (maxDepth : Nat) (total : Nat)
    (opts : ScanOptions) :
    List (String × FS) → Nat → List DiskItem × Nat × List ScanProgress
  | [], c => ([], c, [])
  | (n, f) :: t, c =>
    if !f.isDir then fastDirs dirPath maxDepth total opts t c
    else if opts.skip_hidden && hiddenName n then
      fastDirs dirPath maxDepth total opts t c
    else
      let current := c + 1
      let tr := if shouldEmitDir current then
          [mkProgress (pathJoin dirPath n) current total] else []
      if opts.fast_mode && isLargeDirectory f && decide (1 < maxDepth) then
        let item := DiskItem.mk n (pathJoin dirPath n) (estimateDirSize f) true (some [])
        let r := fastDirs dirPath maxDepth total opts t current
        (item :: r.1, r.2.1, tr ++ r.2.2)
      else
        let ri := fastScan n (pathJoin dirPath n) f (maxDepth - 1) total opts current
        let r := fastDirs dirPath maxDepth total opts t ri.2.1
        (ri.1 :: r.1, r.2.1, tr ++ ri.2.2 ++ r.2.2)
end

mutual
/-- `comprehensive_scan`: increment the counter and emit a throttled
event for the directory itself, then walk the immediate entries
depth-first (the Windows skip list is empty on this platform, and
`WalkDir` yields nothing for a file or unlistable root).  Children are
sorted by size descending; when the children list is non-empty the root's
size is set to the sum of their sizes, otherwise the root keeps
`size = 0` and `children = Some([])`. -/
def comprehensiveScan (name dirPath : String) (fs : FS) (maxDepth : Nat)
    (total : Nat) (opts : ScanOptions) (c : Nat) :
    DiskItem × Nat × List ScanProgress :=
  let current := c + 1
  let tr0 := if shouldEmitDir current then [mkProgress dirPath current total] else []
  match fs with
  | .dir _ es =>
    let r := compEntries dirPath maxDepth total opts es current
    if r.1.isEmpty then
      (DiskItem.mk name dirPath 0 true (some []), r.2.1, tr0 ++ r.2.2)
    else
      let sorted := sortBySizeDesc r.1
      (DiskItem.mk name dirPath (sumSizes sorted) true (some sorted), r.2.1, tr0 ++ r.2.2)
  | _ => (DiskItem.mk name dirPath 0 true (some []), current, tr0)

/-- The per-entry loop of `comprehensive_scan`: skip hidden names; a
file's size is its metadata length, a directory's size is
`get_size(path)` demoted to 0 on error; increment the counter and emit a
throttled event per entry; for a directory with `max_depth > 0` the
pre-computed child is replaced by a recursive scan at `max_depth - 1`
(which performs its own increment for the subdirectory root). -/
def compEntries (dirPath : String) (maxDepth : Nat) (total : Nat)
    (opts : ScanOptions) :
    List (String × FS) → Nat → List DiskItem × Nat × List ScanProgress
  | [], c => ([], c, [])
  | (n, f) :: t, c =>
    if opts.skip_hidden && hiddenName n then
      compEntries dirPath maxDepth total opts t c
    else
      let size := if f.isDir then getSizeD f else f.metadataLen
      let current := c + 1
      let tr := if shouldEmitDir current then
          [mkProgress (pathJoin dirPath n) current total] else []
      if f.isDir && decide (0 < maxDepth) then
        let ri := comprehensiveScan n (pathJoin dirPath n) f (maxDepth - 1) total opts current
        let r := compEntries dirPath maxDepth total opts t ri.2.1
        (ri.1 :: r.1, r.2.1, tr ++ ri.2.2 ++ r.2.2)
      else
        let item := DiskItem.mk n (pathJoin dirPath n) size f.isDir
          (if f.isDir then some [] else none)
        let r := compEntries dirPath maxDepth total opts t current
        (item :: r.1, r.2.1, tr ++ r.2.2)
end

/-- The canonicalization step of `scan_directory`, which happens outside
the tree model: `exists` is whether the root path exists, and `canon` is
the outcome of `dunce::canonicalize` — `none` on failure, or the
canonical root's leaf name, canonical path string, and subtree. -/
def scanDirectory (pathExists : Bool) (canon : Option (String × String × FS))
    (depth : Option Nat) (options : Option ScanOptions) :
    Except String DiskItem × List ScanProgress :=
  let maxDepth := depth.getD 2
  let opts := options.getD { fast_mode := true, skip_hidden := true }
  if !pathExists then (Except.error "Path does not exist", [])
  else
    match canon with
    | none => (Except.error "Failed to canonicalize path", [])
    | some (name, cpath, fs) =>
      let total := estimateItemCount fs maxDepth
      let first := mkProgress cpath 0 total
      let r :=
        if opts.fast_mode then fastScan name cpath fs maxDepth total opts 0
        else comprehensiveScan name cpath fs maxDepth total opts 0
      (Except.ok r.1, first :: r.2.2 ++ [mkProgress cpath total total])

/-- The node of a successful scan, if any. -/
def scanResult (pathExists : Bool) (canon : Option (String × String × FS))
    (depth : Option Nat) (options : Option ScanOptions) : Option DiskItem :=
  match (scanDirectory pathExists canon depth options).1 with
  | .ok item => some item
  | .error _ => none

/-- The emitted `scan-progress` trace of a scan call. -/
def scanTrace (pathExists : Bool) (canon : Option (String × String × FS))
    (depth : Option Nat) (options : Option ScanOptions) : List ScanProgress :=
  (scanDirectory pathExists canon depth options).2

/-! ## Volume probes -/

/-- The `DriveInfo` record returned by `get_drive_info`. -/
structure DriveInfo where
  name : String
  mount_point : String
  total_space : Nat
  available_space : Nat
  used_space : Nat
  deriving DecidableEq

/-- `str::split_whitespace` specialised to the blank characters `df`
output contains: split on spaces and tabs, dropping empty fields. -/
def splitWSAux : List Char → List Char → List String
  | [], [] => []
  | [], acc => [String.mk acc.reverse]
  | ch :: rest, acc =>
    if ch = ' ' || ch = '\t' then
      match acc with
      | [] => splitWSAux rest []
      | _ => String.mk acc.reverse :: splitWSAux rest []
    else splitWSAux rest (ch :: acc)

def splitWS (s : String) : List String := splitWSAux s.data []

def digitVal (ch : Char) : Nat := ch.toNat - 48

/-- `parts[k].parse::<u64>().unwrap_or(0)`: a string of decimal digits
parses to its value, anything else (as arises in `df` output) to 0.
(Rust also accepts a leading `+` and rejects values above `u64::MAX`;
neither case occurs in the inputs the claims concern.) -/
def parseU64 (s : String) : Nat :=
  if s.data ≠ [] && s.data.all Char.isDigit then
    s.data.foldl (fun n ch => n * 10 + digitVal ch) 0
  else 0

/-- `get_unix_drives`, given the raw line list of `df -k` output and the
outcome of `fs::metadata(mount_point).map(|m| m.len())` per path: skip
the header line; skip lines with fewer than six whitespace-separated
fields; skip mount points whose metadata fails; otherwise report the
device name, the mount point, `total_space` read from the mount point's
metadata length, and the `Available` and `Used` columns (KiB) times
1024. -/
def getUnixDrives (output : List String) (metaLen : String → Option Nat) :
    List DriveInfo :=
  (output.drop 1).filterMap fun line =>
    let parts := splitWS line
    if parts.length < 6 then none
    else
      match metaLen (parts.getD 5 "") with
      | none => none
      | some total =>
        some { name := parts.getD 0 "", mount_point := parts.getD 5 "",
               total_space := total,
               available_space := parseU64 (parts.getD 3 "") * 1024,
               used_space := parseU64 (parts.getD 2 "") * 1024 }

/-- What the OS reports for one candidate Windows mount point `X:\`:
whether the path exists, whether `fs::metadata` succeeds and calls it a
file (CD-ROM special case), and — when `GetDiskFreeSpaceExW` returns
non-zero — the `(available_bytes, total_bytes, free_bytes)` triple. -/
structure WinDriveProbe where
  letter : Char
  pathExists : Bool
  metaOk : Bool
  isFile : Bool
  api : Option (Nat × Nat × Nat)

/-- `get_windows_drives` over the probes for `A:\` .. `Z:\`: skip
non-existing paths, metadata failures, file-typed drives, failed API
calls and zero-total volumes; otherwise `used_space` is
`total_bytes.saturating_sub(available_bytes)` (`Nat` subtraction). -/
def getWindowsDrives (probes : List WinDriveProbe) : List DriveInfo :=
  probes.filterMap fun p =>
    if !p.pathExists then none
    else if !p.metaOk then none
    else if p.isFile then none
    else
      match p.api with
      | none => none
      | some (avail, total, _) =>
        if 0 < total then
          some { name := "Drive " ++ String.mk [p.letter],
                 mount_point := String.mk [p.letter] ++ ":\\",
                 total_space := total, available_space := avail,
                 used_space := total - avail }
        else none

/-! ## Observers on the returned tree and trace -/

mutual
/-- All nodes of a `DiskItem` tree, the root included. -/
def allNodes : DiskItem → List DiskItem
  | .mk n p s d none => [.mk n p s d none]
  | .mk n p s d (some l) => .mk n p s d (some l) :: allNodesL l

def allNodesL : List DiskItem → List DiskItem
  | [] => []
  | d :: t => allNodes d ++ allNodesL t
end

mutual
/-- The depth of the deepest materialized node below this one: 0 for a
node with absent or empty children. -/
def heightD : DiskItem → Nat
  | .mk _ _ _ _ none => 0
  | .mk _ _ _ _ (some l) => heightL l

def heightL : List DiskItem → Nat
  | [] => 0
  | d :: t => max (1 + heightD d) (heightL t)
end

/-- Every node of the tree has its children sorted by size descending. -/
def AllSorted (t : DiskItem) : Prop :=
  ∀ x ∈ allNodes t, List.Sorted descBySize x.childrenList

/-- Every node of the tree whose children sequence is present and
non-empty has `size` equal to the sum of its children's sizes. -/
def SumOK (t : DiskItem) : Prop :=
  ∀ x ∈ allNodes t, ∀ l, x.children = some l → l ≠ [] → x.size = sumSizes l

/-- The percentage `emit_progress` actually computes (no clamping). -/
def rawPercent (processed total : Nat) : ℚ :=
  if 0 < total then (processed : ℚ) / (total : ℚ) * 100 else 0

/-- The percentage the specification claims: `processed / total * 100`
clamped to `[0, 100]`, and 0 when `total` is zero. -/
def clampedPercent (processed total : Nat) : ℚ :=
  if 0 < total then min 100 (max 0 ((processed : ℚ) / (total : ℚ) * 100)) else 0

/-- Invariant of an emission run: starting from counter value `c` and
finishing at `c2`, the emitted events carry strictly increasing processed
counts within `(c, c2]`, all with the fixed `total` and with the raw
(unclamped) percentage. -/
def TraceOK (c c2 total : Nat) (tr : List ScanProgress) : Prop :=
  c ≤ c2 ∧ (tr.map ScanProgress.processed_items).Chain' (· < ·) ∧
    ∀ e ∈ tr, c < e.processed_items ∧ e.processed_items ≤ c2 ∧
      e.total_items = total ∧
      e.percent = rawPercent e.processed_items e.total_items

/-! ## Concrete inputs used by witnesses and counterexamples -/

/-- `{fast_mode: true, skip_hidden: true}` — the defaults. -/
def optsFast : ScanOptions := { fast_mode := true, skip_hidden := true }

/-- Comprehensive mode with hidden entries skipped. -/
def optsComp : ScanOptions := { fast_mode := false, skip_hidden := true }

/-- A flat directory with three files of 100, 300 and 50 bytes. -/
def flatFS : FS := .dir 0 [("a", .file 100), ("b", .file 300), ("c", .file 50)]

/-- A directory chain `r/a/b/c` whose innermost directory holds five
1-byte files; scanned with depth 3 the item-count estimator undercounts
(it stops estimating below the first level when the requested depth
exceeds 2), so the walk processes more entries than `total_items`. -/
def chainFS : FS :=
  .dir 0 [("a", .dir 0 [("b", .dir 0 [("c",
    .dir 0 [("f1", .file 1), ("f2", .file 1), ("f3", .file 1),
            ("f4", .file 1), ("f5", .file 1)])])])]

/-- The contents shared by the two directories of `c10FS`: a hidden
10-byte file and a visible 1-byte file. -/
def dContents : List (String × FS) := [(".h", .file 10), ("x", .file 1)]

/-- Two directories with identical contents, one materialized at depth 1
(expanded, children listed) and one first reachable at depth 2 (a leaf
when scanned with depth 1). -/
def c10FS : FS := .dir 0 [("d1", .dir 0 dContents), ("e", .dir 0 [("d2", .dir 0 dContents)])]

/-- A directory with 1000 one-byte files: classified "large" by the
probe. -/
def bigFS : FS := .dir 0 (List.replicate 1000 ("f", FS.file 1))

/-- A root whose single subdirectory is large. -/
def bigParentFS : FS := .dir 0 [("big", bigFS)]

/-- `df -k` output (header plus one volume line) for the Unix probe. -/
def dfOut : List String :=
  ["Filesystem 1K-blocks Used Available Use% Mounted on",
   "/dev/sda1 1048576 524288 524288 50% /"]

/-- Mount-point metadata for `dfOut`: `/` is a directory whose metadata
length is 4096 bytes. -/
def dfMeta : String → Option Nat := fun s => if s = "/" then some 4096 else none

/-- The drive record `getUnixDrives dfOut dfMeta` produces. -/
def sdaDrive : DriveInfo :=
  { name := "/dev/sda1", mount_point := "/", total_space := 4096,
    available_space := 536870912, used_space := 536870912 }

/-- The number of nodes of `t` whose `name` is `nm`, with their sizes, in
pre-order. -/
def sizesNamed (t : DiskItem) (nm : String) : List Nat :=
  (allNodes t).filterMap (fun x => if x.name = nm then some x.size else none)

/-- Executable check that a list of counts is non-decreasing. -/
def chainLeB : List Nat → Bool
  | [] => true
  | [_] => true
  | a :: b :: t => decide (a ≤ b) && chainLeB (b :: t)

/-! ## Basic lemmas -/

@[simp] theorem DiskItem.name_mk (n p : String) (s : Nat) (b : Bool)
    (co : Option (List DiskItem)) : (DiskItem.mk n p s b co).name = n := rfl

@[simp] theorem DiskItem.path_mk (n p : String) (s : Nat) (b : Bool)
    (co : Option (List DiskItem)) : (DiskItem.mk n p s b co).path = p := rfl

@[simp] theorem DiskItem.size_mk (n p : String) (s : Nat) (b : Bool)
    (co : Option (List DiskItem)) : (DiskItem.mk n p s b co).size = s := rfl

@[simp] theorem DiskItem.is_dir_mk (n p : String) (s : Nat) (b : Bool)
    (co : Option (List DiskItem)) : (DiskItem.mk n p s b co).is_dir = b := rfl

@[simp] theorem DiskItem.children_mk (n p : String) (s : Nat) (b : Bool)
    (co : Option (List DiskItem)) : (DiskItem.mk n p s b co).children = co := rfl

@[simp] theorem DiskItem.childrenList_mk_none (n p : String) (s : Nat) (b : Bool) :
    (DiskItem.mk n p s b none).childrenList = [] := rfl

@[simp] theorem DiskItem.childrenList_mk_some (n p : String) (s : Nat) (b : Bool)
    (l : List DiskItem) : (DiskItem.mk n p s b (some l)).childrenList = l := rfl

@[simp] theorem mkProgress_processed (path : String) (processed total : Nat) :
    (mkProgress path processed total).processed_items = processed := rfl

@[simp] theorem mkProgress_total (path : String) (processed total : Nat) :
    (mkProgress path processed total).total_items = total := rfl

theorem mkProgress_percent (path : String) (processed total : Nat) :
    (mkProgress path processed total).percent = rawPercent processed total := rfl

theorem sortBySizeDesc_sorted (l : List DiskItem) :
    List.Sorted descBySize (sortBySizeDesc l) :=
  List.sorted_insertionSort descBySize l

theorem sortBySizeDesc_perm (l : List DiskItem) :
    (sortBySizeDesc l).Perm l :=
  List.perm_insertionSort descBySize l

theorem mem_sortBySizeDesc {x : DiskItem} {l : List DiskItem} :
    x ∈ sortBySizeDesc l ↔ x ∈ l :=
  (sortBySizeDesc_perm l).mem_iff

theorem sumSizes_sortBySizeDesc (l : List DiskItem) :
    sumSizes (sortBySizeDesc l) = sumSizes l := by
  unfold sumSizes
  exact List.Perm.sum_eq (List.Perm.map DiskItem.size (sortBySizeDesc_perm l))

theorem length_sortBySizeDesc (l : List DiskItem) :
    (sortBySizeDesc l).length = l.length :=
  (sortBySizeDesc_perm l).length_eq

/-! ## allNodes lemmas -/

theorem allNodes_eq_cons (t : DiskItem) :
    allNodes t = t :: allNodesL t.childrenList := by
  cases t with
  | mk n p s b co =>
    cases co with
    | none => rfl
    | some l => rfl

theorem mem_allNodesL_iff {x : DiskItem} {l : List DiskItem} :
    x ∈ allNodesL l ↔ ∃ d ∈ l, x ∈ allNodes d := by
  induction l with
  | nil => simp [allNodesL]
  | cons d t ih =>
    simp only [allNodesL, List.mem_append, ih, List.mem_cons]
    constructor
    · rintro (h | ⟨d', hd', hx⟩)
      · exact ⟨d, Or.inl rfl, h⟩
      · exact ⟨d', Or.inr hd', hx⟩
    · rintro ⟨d', hd' | hd', hx⟩
      · exact Or.inl (hd' ▸ hx)
      · exact Or.inr ⟨d', hd', hx⟩

theorem self_mem_allNodes (t : DiskItem) : t ∈ allNodes t := by
  rw [allNodes_eq_cons]; exact List.mem_cons_self t _

/-! ## AllSorted lemmas -/

theorem allSorted_of_childrenList_nil {t : DiskItem}
    (h : t.childrenList = []) : AllSorted t := by
  intro x hx
  rw [allNodes_eq_cons, h] at hx
  simp only [allNodesL, List.mem_singleton] at hx
  subst hx
  rw [h]
  exact List.sorted_nil

theorem allSorted_node (n p : String) (s : Nat) (b : Bool) (l : List DiskItem)
    (h : ∀ d ∈ l, AllSorted d) :
    AllSorted (DiskItem.mk n p s b (some (sortBySizeDesc l))) := by
  intro x hx
  rw [allNodes_eq_cons] at hx
  simp only [DiskItem.childrenList_mk_some, List.mem_cons] at hx
  rcases hx with rfl | hx
  · simpa using sortBySizeDesc_sorted l
  · obtain ⟨d, hd, hxd⟩ := mem_allNodesL_iff.mp hx
    exact h d (mem_sortBySizeDesc.mp hd) x hxd

/-! ## Height lemmas -/

theorem heightL_le (l : List DiskItem) (k : Nat)
    (h : ∀ x ∈ l, heightD x ≤ k) : heightL l ≤ k + 1 := by
  induction l with
  | nil => simp [heightL]
  | cons d t ih =>
    simp only [heightL, max_le_iff]
    constructor
    · have := h d (List.mem_cons_self d t)
      omega
    · exact ih (fun x hx => h x (List.mem_cons_of_mem d hx))

theorem heightD_mk_sorted_le (n p : String) (s : Nat) (b : Bool)
    (l : List DiskItem) (k : Nat) (h : ∀ x ∈ l, heightD x ≤ k) :
    heightD (DiskItem.mk n p s b (some (sortBySizeDesc l))) ≤ k + 1 := by
  show heightL (sortBySizeDesc l) ≤ k + 1
  exact heightL_le _ k (fun x hx => h x (mem_sortBySizeDesc.mp hx))

/-! ## TraceOK lemmas -/

theorem traceOK_nil {c c2 : Nat} (total : Nat) (h : c ≤ c2) :
    TraceOK c c2 total [] := by
  refine ⟨h, by simp, by simp⟩

theorem traceOK_emit (c total : Nat) (path : String) (b : Bool) :
    TraceOK c (c + 1) total
      (if b then [mkProgress path (c + 1) total] else []) := by
  cases b with
  | false => exact traceOK_nil total (Nat.le_succ c)
  | true =>
    refine ⟨Nat.le_succ c, by simp, ?_⟩
    intro e he
    simp only [if_true, List.mem_singleton] at he
    subst he
    exact ⟨Nat.lt_succ_self c, le_refl _, rfl, rfl⟩

theorem TraceOK.append {c c1 c2 total : Nat} {t1 t2 : List ScanProgress}
    (h1 : TraceOK c c1 total t1) (h2 : TraceOK c1 c2 total t2) :
    TraceOK c c2 total (t1 ++ t2) := by
  obtain ⟨hc1, hch1, he1⟩ := h1
  obtain ⟨hc2, hch2, he2⟩ := h2
  refine ⟨Nat.le_trans hc1 hc2, ?_, ?_⟩
  · rw [List.map_append, List.chain'_append]
    refine ⟨hch1, hch2, ?_⟩
    intro x hx y hy
    rw [List.getLast?_map] at hx
    rw [List.head?_map] at hy
    simp only [Option.mem_def, Option.map_eq_some'] at hx hy
    obtain ⟨e1, he1', rfl⟩ := hx
    obtain ⟨e2, he2', rfl⟩ := hy
    have m1 : e1 ∈ t1 := by
      obtain ⟨hne, rfl⟩ := List.mem_getLast?_eq_getLast he1'
      exact List.getLast_mem hne
    have m2 : e2 ∈ t2 := List.mem_of_mem_head? he2'
    calc e1.processed_items ≤ c1 := (he1 e1 m1).2.1
      _ < e2.processed_items := (he2 e2 m2).1
  · intro e he
    rcases List.mem_append.mp he with h | h
    · obtain ⟨ha, hb, hc, hd⟩ := he1 e h
      exact ⟨ha, Nat.le_trans hb hc2, hc, hd⟩
    · obtain ⟨ha, hb, hc, hd⟩ := he2 e h
      exact ⟨Nat.lt_of_le_of_lt hc1 ha, hb, hc, hd⟩

theorem TraceOK.extend {c c2 c3 total : Nat} {tr : List ScanProgress}
    (h : TraceOK c c2 total tr) (h23 : c2 ≤ c3) : TraceOK c c3 total tr := by
  obtain ⟨hc, hch, he⟩ := h
  refine ⟨Nat.le_trans hc h23, hch, ?_⟩
  intro e hee
  obtain ⟨ha, hb, hcc, hd⟩ := he e hee
  exact ⟨ha, Nat.le_trans hb h23, hcc, hd⟩

/-! ## Leaf-shape and SumOK closure lemmas -/

theorem sumOK_of_childrenList_leaf {t : DiskItem}
    (h : t.children = none ∨ t.children = some []) : SumOK t := by
  intro x hx l hl hne
  rw [allNodes_eq_cons] at hx
  have hcl : t.childrenList = [] := by
    rcases h with h | h <;> simp [DiskItem.childrenList, h]
  rw [hcl] at hx
  simp only [allNodesL, List.mem_singleton] at hx
  subst hx
  rcases h with h | h <;> rw [h] at hl
  · exact absurd hl (by simp)
  · exact absurd (Option.some_injective _ hl).symm hne

theorem sumOK_node (n p : String) (b : Bool) (l : List DiskItem)
    (h : ∀ d ∈ l, SumOK d) :
    SumOK (DiskItem.mk n p (sumSizes (sortBySizeDesc l)) b (some (sortBySizeDesc l))) := by
  intro x hx l' hl' hne
  rw [allNodes_eq_cons] at hx
  simp only [DiskItem.childrenList_mk_some, List.mem_cons] at hx
  rcases hx with rfl | hx
  · simp only [DiskItem.children_mk] at hl'
    rw [← Option.some_injective _ hl']
    simp
  · obtain ⟨d, hd, hxd⟩ := mem_allNodesL_iff.mp hx
    exact h d (mem_sortBySizeDesc.mp hd) x hxd l' hl' hne

/-! ## fastFiles / fastLeaves specifications -/

theorem fastFiles_spec (dirPath : String) (total : Nat) (opts : ScanOptions) :
    ∀ (es : List (String × FS)) (c : Nat),
      TraceOK c (fastFiles dirPath total opts es c).2.1 total
        (fastFiles dirPath total opts es c).2.2 ∧
      ∀ item ∈ (fastFiles dirPath total opts es c).1, ∃ nm f, (nm, f) ∈ es ∧
        item = DiskItem.mk nm (pathJoin dirPath nm) f.metadataLen false none := by
  intro es
  induction es with
  | nil =>
    intro c
    exact ⟨traceOK_nil total (le_refl c), by simp [fastFiles]⟩
  | cons hd t ih =>
    intro c
    obtain ⟨n, f⟩ := hd
    by_cases h1 : opts.skip_hidden && hiddenName n
    · simp only [fastFiles, h1, if_true]
      obtain ⟨htr, hit⟩ := ih c
      refine ⟨htr, ?_⟩
      intro item hitem
      obtain ⟨nm, f', hmem, he⟩ := hit item hitem
      exact ⟨nm, f', List.mem_cons_of_mem _ hmem, he⟩
    · by_cases h2 : f.isFile
      · simp only [fastFiles, h1, if_false, h2, if_true, Bool.false_eq_true]
        obtain ⟨htr, hit⟩ := ih (c + 1)
        constructor
        · exact (traceOK_emit c total (pathJoin dirPath n) _).append htr
        · intro item hitem
          rcases List.mem_cons.mp hitem with rfl | hmem
          · exact ⟨n, f, List.mem_cons_self _ _, rfl⟩
          · obtain ⟨nm, f', hmem', he⟩ := hit item hmem
            exact ⟨nm, f', List.mem_cons_of_mem _ hmem', he⟩
      · simp only [fastFiles, h1, if_false, h2, Bool.false_eq_true]
        obtain ⟨htr, hit⟩ := ih c
        refine ⟨htr, ?_⟩
        intro item hitem
        obtain ⟨nm, f', hmem, he⟩ := hit item hitem
        exact ⟨nm, f', List.mem_cons_of_mem _ hmem, he⟩

theorem fastLeaves_spec (dirPath : String) (total : Nat) (opts : ScanOptions) :
    ∀ (es : List (String × FS)) (c : Nat),
      TraceOK c (fastLeaves dirPath total opts es c).2.1 total
        (fastLeaves dirPath total opts es c).2.2 ∧
      ∀ item ∈ (fastLeaves dirPath total opts es c).1, ∃ nm f, (nm, f) ∈ es ∧
        item = DiskItem.mk nm (pathJoin dirPath nm) (estimateDirSize f) true (some []) := by
  intro es
  induction es with
  | nil =>
    intro c
    exact ⟨traceOK_nil total (le_refl c), by simp [fastLeaves]⟩
  | cons hd t ih =>
    intro c
    obtain ⟨n, f⟩ := hd
    by_cases h1 : f.isDir
    · by_cases h2 : opts.skip_hidden && hiddenName n
      · simp only [fastLeaves, h1, h2, Bool.not_true, if_false, if_true, Bool.false_eq_true]
        obtain ⟨htr, hit⟩ := ih c
        refine ⟨htr, ?_⟩
        intro item hitem
        obtain ⟨nm, f', hmem, he⟩ := hit item hitem
        exact ⟨nm, f', List.mem_cons_of_mem _ hmem, he⟩
      · simp only [fastLeaves, h1, h2, Bool.not_true, if_false, Bool.false_eq_true]
        obtain ⟨htr, hit⟩ := ih (c + 1)
        constructor
        · exact (traceOK_emit c total (pathJoin dirPath n) _).append htr
        · intro item hitem
          rcases List.mem_cons.mp hitem with rfl | hmem
          · exact ⟨n, f, List.mem_cons_self _ _, rfl⟩
          · obtain ⟨nm, f', hmem', he⟩ := hit item hmem
            exact ⟨nm, f', List.mem_cons_of_mem _ hmem', he⟩
    · simp only [fastLeaves, h1, Bool.not_false, if_true]
      obtain ⟨htr, hit⟩ := ih c
      refine ⟨htr, ?_⟩
      intro item hitem
      obtain ⟨nm, f', hmem, he⟩ := hit item hitem
      exact ⟨nm, f', List.mem_cons_of_mem _ hmem, he⟩

/-! ## fast_scan specification -/

theorem heightD_mk_none (n p : String) (s : Nat) (b : Bool) :
    heightD (DiskItem.mk n p s b none) = 0 := rfl

theorem heightD_mk_some_nil (n p : String) (s : Nat) (b : Bool) :
    heightD (DiskItem.mk n p s b (some [])) = 0 := rfl

mutual
theorem fastScan_spec (name dirPath : String) (fs : FS) (maxDepth total : Nat)
    (opts : ScanOptions) (c : Nat) :
    TraceOK c (fastScan name dirPath fs maxDepth total opts c).2.1 total
        (fastScan name dirPath fs maxDepth total opts c).2.2 ∧
      AllSorted (fastScan name dirPath fs maxDepth total opts c).1 ∧
      heightD (fastScan name dirPath fs maxDepth total opts c).1 ≤ maxDepth + 1 := by
  cases fs with
  | file len =>
    refine ⟨traceOK_nil total (le_refl c), ?_, ?_⟩
    · exact allSorted_of_childrenList_nil rfl
    · show heightD (DiskItem.mk name dirPath 0 true (some [])) ≤ maxDepth + 1
      rw [heightD_mk_some_nil]
      omega
  | unreadable m =>
    refine ⟨traceOK_nil total (le_refl c), ?_, ?_⟩
    · exact allSorted_of_childrenList_nil rfl
    · show heightD (DiskItem.mk name dirPath 0 true (some [])) ≤ maxDepth + 1
      rw [heightD_mk_some_nil]
      omega
  | dir m es =>
    have hf := fastFiles_spec dirPath total opts es c
    by_cases hd : 0 < maxDepth
    · have hds := fastDirs_spec dirPath maxDepth total opts es
        (fastFiles dirPath total opts es c).2.1
      simp only [fastScan, if_pos hd]
      refine ⟨hf.1.append hds.1, ?_, ?_⟩
      · apply allSorted_node
        intro d hmem
        rcases List.mem_append.mp hmem with hmf | hmd
        · obtain ⟨nm, f', _, rfl⟩ := hf.2 d hmf
          exact allSorted_of_childrenList_nil rfl
        · exact (hds.2 d hmd).1
      · apply heightD_mk_sorted_le _ _ _ _ _ maxDepth
        intro x hx
        rcases List.mem_append.mp hx with hmf | hmd
        · obtain ⟨nm, f', _, rfl⟩ := hf.2 x hmf
          rw [heightD_mk_none]
          omega
        · exact (hds.2 x hmd).2 hd
    · have hls := fastLeaves_spec dirPath total opts es
        (fastFiles dirPath total opts es c).2.1
      simp only [fastScan, if_neg hd]
      refine ⟨hf.1.append hls.1, ?_, ?_⟩
      · apply allSorted_node
        intro d hmem
        rcases List.mem_append.mp hmem with hmf | hmd
        · obtain ⟨nm, f', _, rfl⟩ := hf.2 d hmf
          exact allSorted_of_childrenList_nil rfl
        · obtain ⟨nm, f', _, rfl⟩ := hls.2 d hmd
          exact allSorted_of_childrenList_nil rfl
      · refine le_trans (heightD_mk_sorted_le _ _ _ _ _ 0 ?_) (by omega)
        intro x hx
        rcases List.mem_append.mp hx with hmf | hmd
        · obtain ⟨nm, f', _, rfl⟩ := hf.2 x hmf
          rw [heightD_mk_none]
        · obtain ⟨nm, f', _, rfl⟩ := hls.2 x hmd
          rw [heightD_mk_some_nil]

theorem fastDirs_spec (dirPath : String) (maxDepth total : Nat)
    (opts : ScanOptions) (es : List (String × FS)) (c : Nat) :
    TraceOK c (fastDirs dirPath maxDepth total opts es c).2.1 total
        (fastDirs dirPath maxDepth total opts es c).2.2 ∧
      ∀ item ∈ (fastDirs dirPath maxDepth total opts es c).1,
        AllSorted item ∧ (0 < maxDepth → heightD item ≤ maxDepth) := by
  cases es with
  | nil => exact ⟨traceOK_nil total (le_refl c), by simp [fastDirs]⟩
  | cons hd t =>
    obtain ⟨n, f⟩ := hd
    by_cases h1 : f.isDir
    · by_cases h2 : opts.skip_hidden && hiddenName n
      · have ht := fastDirs_spec dirPath maxDepth total opts t c
        simp only [fastDirs, h1, h2, Bool.not_true, if_false, if_true, Bool.false_eq_true]
        exact ht
      · by_cases h3 : opts.fast_mode && isLargeDirectory f && decide (1 < maxDepth)
        · have ht := fastDirs_spec dirPath maxDepth total opts t (c + 1)
          simp only [fastDirs, h1, h2, h3, Bool.not_true, if_false, if_true,
            Bool.false_eq_true]
          refine ⟨(traceOK_emit c total (pathJoin dirPath n) _).append ht.1, ?_⟩
          intro item hitem
          rcases List.mem_cons.mp hitem with rfl | hmem
          · refine ⟨allSorted_of_childrenList_nil rfl, ?_⟩
            intro _
            rw [heightD_mk_some_nil]
            omega
          · exact ht.2 item hmem
        · have hi := fastScan_spec n (pathJoin dirPath n) f (maxDepth - 1) total opts (c + 1)
          have ht := fastDirs_spec dirPath maxDepth total opts t
            (fastScan n (pathJoin dirPath n) f (maxDepth - 1) total opts (c + 1)).2.1
          simp only [fastDirs, h1, h2, h3, Bool.not_true, if_false, Bool.false_eq_true]
          refine ⟨((traceOK_emit c total (pathJoin dirPath n) _).append hi.1).append ht.1, ?_⟩
          intro item hitem
          rcases List.mem_cons.mp hitem with rfl | hmem
          · refine ⟨hi.2.1, ?_⟩
            intro hdep
            have := hi.2.2
            omega
          · exact ht.2 item hmem
    · have ht := fastDirs_spec dirPath maxDepth total opts t c
      simp only [fastDirs, h1, Bool.not_false, if_true]
      exact ht
end

/-! ## comprehensive_scan specification -/

theorem leafItem_ok (n p : String) (s : Nat) (b : Bool) :
    AllSorted (DiskItem.mk n p s b (if b = true then some [] else none)) ∧
      heightD (DiskItem.mk n p s b (if b = true then some [] else none)) = 0 ∧
      SumOK (DiskItem.mk n p s b (if b = true then some [] else none)) := by
  cases b with
  | false =>
    exact ⟨allSorted_of_childrenList_nil rfl, rfl, sumOK_of_childrenList_leaf (Or.inl rfl)⟩
  | true =>
    exact ⟨allSorted_of_childrenList_nil rfl, rfl, sumOK_of_childrenList_leaf (Or.inr rfl)⟩

mutual
theorem compScan_spec (name dirPath : String) (fs : FS) (maxDepth total : Nat)
    (opts : ScanOptions) (c : Nat) :
    TraceOK c (comprehensiveScan name dirPath fs maxDepth total opts c).2.1 total
        (comprehensiveScan name dirPath fs maxDepth total opts c).2.2 ∧
      AllSorted (comprehensiveScan name dirPath fs maxDepth total opts c).1 ∧
      heightD (comprehensiveScan name dirPath fs maxDepth total opts c).1 ≤ maxDepth + 1 ∧
      SumOK (comprehensiveScan name dirPath fs maxDepth total opts c).1 := by
  cases fs with
  | file len =>
    refine ⟨traceOK_emit c total dirPath _, allSorted_of_childrenList_nil rfl, ?_, ?_⟩
    · show heightD (DiskItem.mk name dirPath 0 true (some [])) ≤ maxDepth + 1
      rw [heightD_mk_some_nil]
      omega
    · exact sumOK_of_childrenList_leaf (Or.inr rfl)
  | unreadable m =>
    refine ⟨traceOK_emit c total dirPath _, allSorted_of_childrenList_nil rfl, ?_, ?_⟩
    · show heightD (DiskItem.mk name dirPath 0 true (some [])) ≤ maxDepth + 1
      rw [heightD_mk_some_nil]
      omega
    · exact sumOK_of_childrenList_leaf (Or.inr rfl)
  | dir m es =>
    have hes := compEntries_spec dirPath maxDepth total opts es (c + 1)
    by_cases he : (compEntries dirPath maxDepth total opts es (c + 1)).1.isEmpty
    · simp only [comprehensiveScan, he, if_true]
      refine ⟨(traceOK_emit c total dirPath _).append hes.1,
        allSorted_of_childrenList_nil rfl, ?_, sumOK_of_childrenList_leaf (Or.inr rfl)⟩
      show heightD (DiskItem.mk name dirPath 0 true (some [])) ≤ maxDepth + 1
      rw [heightD_mk_some_nil]
      omega
    · simp only [comprehensiveScan, he, if_false, Bool.false_eq_true]
      refine ⟨(traceOK_emit c total dirPath _).append hes.1, ?_, ?_, ?_⟩
      · apply allSorted_node
        intro d hmem
        exact (hes.2 d hmem).1
      · apply heightD_mk_sorted_le _ _ _ _ _ maxDepth
        intro x hx
        exact (hes.2 x hx).2.1
      · apply sumOK_node
        intro d hmem
        exact (hes.2 d hmem).2.2

theorem compEntries_spec (dirPath : String) (maxDepth total : Nat)
    (opts : ScanOptions) (es : List (String × FS)) (c : Nat) :
    TraceOK c (compEntries dirPath maxDepth total opts es c).2.1 total
        (compEntries dirPath maxDepth total opts es c).2.2 ∧
      ∀ item ∈ (compEntries dirPath maxDepth total opts es c).1,
        AllSorted item ∧ heightD item ≤ maxDepth ∧ SumOK item := by
  cases es with
  | nil => exact ⟨traceOK_nil total (le_refl c), by simp [compEntries]⟩
  | cons hd t =>
    obtain ⟨n, f⟩ := hd
    by_cases h1 : opts.skip_hidden && hiddenName n
    · have ht := compEntries_spec dirPath maxDepth total opts t c
      simp only [compEntries, h1, if_true]
      exact ht
    · by_cases h2 : f.isDir && decide (0 < maxDepth)
      · have hi := compScan_spec n (pathJoin dirPath n) f (maxDepth - 1) total opts (c + 1)
        have ht := compEntries_spec dirPath maxDepth total opts t
          (comprehensiveScan n (pathJoin dirPath n) f (maxDepth - 1) total opts (c + 1)).2.1
        simp only [compEntries, h1, h2, if_false, if_true, Bool.false_eq_true]
        refine ⟨((traceOK_emit c total (pathJoin dirPath n) _).append hi.1).append ht.1, ?_⟩
        intro item hitem
        rcases List.mem_cons.mp hitem with rfl | hmem
        · refine ⟨hi.2.1, ?_, hi.2.2.2⟩
          have hdep : 0 < maxDepth := by
            have := h2
            simp only [Bool.and_eq_true, decide_eq_true_eq] at this
            exact this.2
          have := hi.2.2.1
          omega
        · exact ht.2 item hmem
      · have ht := compEntries_spec dirPath maxDepth total opts t (c + 1)
        simp only [compEntries, h1, h2, if_false, Bool.false_eq_true]
        refine ⟨(traceOK_emit c total (pathJoin dirPath n) _).append ht.1, ?_⟩
        intro item hitem
        rcases List.mem_cons.mp hitem with rfl | hmem
        · obtain ⟨ha, hh, hs⟩ := leafItem_ok n (pathJoin dirPath n)
            (if f.isDir = true then getSizeD f else f.metadataLen) f.isDir
          exact ⟨ha, by rw [hh]; omega, hs⟩
        · exact ht.2 item hmem
end

/-! ## Membership lemmas for specific scan branches -/

theorem compEntries_depth0_mem (dirPath : String) (total : Nat) (opts : ScanOptions) :
    ∀ (es : List (String × FS)) (c : Nat) (n : String) (f : FS), (n, f) ∈ es →
      (opts.skip_hidden && hiddenName n) = false → f.isDir = true →
      DiskItem.mk n (pathJoin dirPath n) (getSizeD f) true (some []) ∈
        (compEntries dirPath 0 total opts es c).1 := by
  intro es
  induction es with
  | nil => intro c n f hmem; exact absurd hmem (List.not_mem_nil _)
  | cons hd t ih =>
    intro c n f hmem hh hdir
    obtain ⟨n', f'⟩ := hd
    rcases List.mem_cons.mp hmem with heq | hmem'
    · injection heq with e1 e2
      subst e1
      subst e2
      have h2 : (f.isDir && decide (0 < 0)) = false := by simp
      simp only [compEntries, hh, h2, if_false, Bool.false_eq_true]
      rw [hdir]
      exact List.mem_cons_self _ _
    · by_cases h1 : opts.skip_hidden && hiddenName n'
      · simp only [compEntries, h1, if_true]
        exact ih c n f hmem' hh hdir
      · have h2 : (f'.isDir && decide (0 < 0)) = false := by simp
        simp only [compEntries, h1, h2, if_false, Bool.false_eq_true]
        exact List.mem_cons_of_mem _ (ih (c + 1) n f hmem' hh hdir)

theorem compScan_depth0_mem (name dirPath : String) (m : Nat)
    (es : List (String × FS)) (total : Nat) (opts : ScanOptions) (c : Nat)
    (n : String) (f : FS) (hmem : (n, f) ∈ es)
    (hh : (opts.skip_hidden && hiddenName n) = false) (hdir : f.isDir = true) :
    DiskItem.mk n (pathJoin dirPath n) (getSizeD f) true (some []) ∈
      (comprehensiveScan name dirPath (.dir m es) 0 total opts c).1.childrenList := by
  have hin := compEntries_depth0_mem dirPath total opts es (c + 1) n f hmem hh hdir
  have hne : (compEntries dirPath 0 total opts es (c + 1)).1.isEmpty = false := by
    cases hE : (compEntries dirPath 0 total opts es (c + 1)).1.isEmpty
    · rfl
    · rw [List.isEmpty_iff] at hE
      rw [hE] at hin
      exact absurd hin (List.not_mem_nil _)
  simp only [comprehensiveScan, hne, if_false, Bool.false_eq_true,
    DiskItem.childrenList_mk_some]
  exact mem_sortBySizeDesc.mpr hin

theorem fastDirs_large_mem (dirPath : String) (maxDepth total : Nat)
    (opts : ScanOptions) :
    ∀ (es : List (String × FS)) (c : Nat) (n : String) (f : FS), (n, f) ∈ es →
      (opts.skip_hidden && hiddenName n) = false → f.isDir = true →
      opts.fast_mode = true → isLargeDirectory f = true → 1 < maxDepth →
      DiskItem.mk n (pathJoin dirPath n) (estimateDirSize f) true (some []) ∈
        (fastDirs dirPath maxDepth total opts es c).1 := by
  intro es
  induction es with
  | nil => intro c n f hmem; exact absurd hmem (List.not_mem_nil _)
  | cons hd t ih =>
    intro c n f hmem hh hdir hfm hlg hdep
    obtain ⟨n', f'⟩ := hd
    rcases List.mem_cons.mp hmem with heq | hmem'
    · injection heq with e1 e2
      subst e1
      subst e2
      have h3 : (opts.fast_mode && isLargeDirectory f && decide (1 < maxDepth)) = true := by
        simp [hfm, hlg, hdep]
      simp only [fastDirs, hdir, hh, h3, Bool.not_true, if_false, if_true,
        Bool.false_eq_true]
      exact List.mem_cons_self _ _
    · by_cases h1 : f'.isDir
      · by_cases h2 : opts.skip_hidden && hiddenName n'
        · simp only [fastDirs, h1, h2, Bool.not_true, if_false, if_true, Bool.false_eq_true]
          exact ih c n f hmem' hh hdir hfm hlg hdep
        · by_cases h3 : opts.fast_mode && isLargeDirectory f' && decide (1 < maxDepth)
          · simp only [fastDirs, h1, h2, h3, Bool.not_true, if_false, if_true,
              Bool.false_eq_true]
            exact List.mem_cons_of_mem _ (ih (c + 1) n f hmem' hh hdir hfm hlg hdep)
          · simp only [fastDirs, h1, h2, h3, Bool.not_true, if_false, Bool.false_eq_true]
            exact List.mem_cons_of_mem _ (ih _ n f hmem' hh hdir hfm hlg hdep)
      · simp only [fastDirs, h1, Bool.not_false, if_true]
        exact ih c n f hmem' hh hdir hfm hlg hdep

theorem fastScan_large_mem (name dirPath : String) (m : Nat)
    (es : List (String × FS)) (maxDepth total : Nat) (opts : ScanOptions) (c : Nat)
    (n : String) (f : FS) (hmem : (n, f) ∈ es)
    (hh : (opts.skip_hidden && hiddenName n) = false) (hdir : f.isDir = true)
    (hfm : opts.fast_mode = true) (hlg : isLargeDirectory f = true)
    (hdep : 1 < maxDepth) :
    DiskItem.mk n (pathJoin dirPath n) (estimateDirSize f) true (some []) ∈
      (fastScan name dirPath (.dir m es) maxDepth total opts c).1.childrenList := by
  have h0 : 0 < maxDepth := by omega
  simp only [fastScan, if_pos h0, DiskItem.childrenList_mk_some]
  apply mem_sortBySizeDesc.mpr
  exact List.mem_append_right _
    (fastDirs_large_mem dirPath maxDepth total opts es _ n f hmem hh hdir hfm hlg hdep)

/-! ## scanDirectory unfolding -/

theorem scanDirectory_eq (name cpath : String) (fs : FS) (d : Option Nat)
    (o : Option ScanOptions) :
    scanDirectory true (some (name, cpath, fs)) d o =
      (Except.ok ((if (o.getD { fast_mode := true, skip_hidden := true }).fast_mode then
          fastScan name cpath fs (d.getD 2) (estimateItemCount fs (d.getD 2))
            (o.getD { fast_mode := true, skip_hidden := true }) 0
        else comprehensiveScan name cpath fs (d.getD 2) (estimateItemCount fs (d.getD 2))
            (o.getD { fast_mode := true, skip_hidden := true }) 0).1),
       mkProgress cpath 0 (estimateItemCount fs (d.getD 2)) ::
        (if (o.getD { fast_mode := true, skip_hidden := true }).fast_mode then
          fastScan name cpath fs (d.getD 2) (estimateItemCount fs (d.getD 2))
            (o.getD { fast_mode := true, skip_hidden := true }) 0
        else comprehensiveScan name cpath fs (d.getD 2) (estimateItemCount fs (d.getD 2))
            (o.getD { fast_mode := true, skip_hidden := true }) 0).2.2 ++
        [mkProgress cpath (estimateItemCount fs (d.getD 2)) (estimateItemCount fs (d.getD 2))]) :=
  rfl

theorem scanDirectory_not_exists (canon : Option (String × String × FS))
    (d : Option Nat) (o : Option ScanOptions) :
    scanDirectory false canon d o = (Except.error "Path does not exist", []) := rfl

theorem scanDirectory_no_canon (pe : Bool) (d : Option Nat) (o : Option ScanOptions) :
    scanDirectory pe none d o =
      (if pe then (Except.error "Failed to canonicalize path", [])
       else (Except.error "Path does not exist", [])) := by
  cases pe <;> rfl

theorem scanResult_eq (name cpath : String) (fs : FS) (d : Option Nat)
    (o : Option ScanOptions) :
    scanResult true (some (name, cpath, fs)) d o =
      some ((if (o.getD { fast_mode := true, skip_hidden := true }).fast_mode then
          fastScan name cpath fs (d.getD 2) (estimateItemCount fs (d.getD 2))
            (o.getD { fast_mode := true, skip_hidden := true }) 0
        else comprehensiveScan name cpath fs (d.getD 2) (estimateItemCount fs (d.getD 2))
            (o.getD { fast_mode := true, skip_hidden := true }) 0).1) := rfl

theorem scanResult_not_exists (canon : Option (String × String × FS))
    (d : Option Nat) (o : Option ScanOptions) :
    scanResult false canon d o = none := rfl

theorem scanResult_no_canon (pe : Bool) (d : Option Nat) (o : Option ScanOptions) :
    scanResult pe none d o = none := by
  cases pe <;> rfl

theorem scanTrace_eq (name cpath : String) (fs : FS) (d : Option Nat)
    (o : Option ScanOptions) :
    scanTrace true (some (name, cpath, fs)) d o =
      mkProgress cpath 0 (estimateItemCount fs (d.getD 2)) ::
        (if (o.getD { fast_mode := true, skip_hidden := true }).fast_mode then
          fastScan name cpath fs (d.getD 2) (estimateItemCount fs (d.getD 2))
            (o.getD { fast_mode := true, skip_hidden := true }) 0
        else comprehensiveScan name cpath fs (d.getD 2) (estimateItemCount fs (d.getD 2))
            (o.getD { fast_mode := true, skip_hidden := true }) 0).2.2 ++
        [mkProgress cpath (estimateItemCount fs (d.getD 2)) (estimateItemCount fs (d.getD 2))] :=
  rfl

/-- Every event any scan call emits carries the raw, unclamped
percentage `processed / total * 100` (0 when `total = 0`). -/
theorem scanTrace_percent_raw (pe : Bool) (canon : Option (String × String × FS))
    (d : Option Nat) (o : Option ScanOptions) :
    ∀ e ∈ scanTrace pe canon d o,
      e.percent = rawPercent e.processed_items e.total_items := by
  cases pe with
  | false =>
    intro e he
    rw [scanTrace, scanDirectory_not_exists] at he
    exact absurd he (List.not_mem_nil _)
  | true =>
    cases canon with
    | none =>
      intro e he
      rw [scanTrace, scanDirectory_no_canon] at he
      simp only [if_true] at he
      exact absurd he (List.not_mem_nil _)
    | some rt =>
      obtain ⟨name, cpath, fs⟩ := rt
      intro e he
      rw [scanTrace_eq] at he
      rcases List.mem_cons.mp he with rfl | he
      · exact mkProgress_percent _ _ _
      · rcases List.mem_append.mp he with he | he
        · by_cases hm : (o.getD { fast_mode := true, skip_hidden := true }).fast_mode
          · rw [if_pos hm] at he
            exact ((fastScan_spec name cpath fs (d.getD 2) _ _ 0).1.2.2 e he).2.2.2
          · rw [if_neg hm] at he
            exact ((compScan_spec name cpath fs (d.getD 2) _ _ 0).1.2.2 e he).2.2.2
        · rw [List.mem_singleton] at he
          subst he
          exact mkProgress_percent _ _ _

/-! ## Claim C1 -/

/-- C1, amended: the returned tree materializes Nodes at most `depth + 1`
levels below the root (not `depth`): children are materialized even at
the deepest permitted level, in both scan modes. -/
theorem disksense_c1_depth_bound (name cpath : String) (fs : FS) (d : Nat)
    (o : Option ScanOptions) :
    ((scanResult true (some (name, cpath, fs)) (some d) o).map heightD).getD 0 ≤ d + 1 := by
  rw [scanResult_eq]
  by_cases hm : (o.getD { fast_mode := true, skip_hidden := true }).fast_mode
  · rw [if_pos hm]
    simp only [Option.map_some', Option.getD_some, Option.getD_some]
    exact (fastScan_spec name cpath fs _ _ _ 0).2.2
  · rw [if_neg hm]
    simp only [Option.map_some', Option.getD_some]
    exact (compScan_spec name cpath fs _ _ _ 0).2.2.1

/-- C1, counterexample: a directory root holding one file, scanned with
`depth = 0` (default fast mode), returns a node whose children sequence
has length 1 — not the empty sequence the claim requires, and the child
is a materialized Node 1 > 0 levels below the root. -/
theorem disksense_c1_counterexample :
    (scanResult true (some ("r", "/r", FS.dir 0 [("f", FS.file 5)])) (some 0) none).map
      (fun t => t.childrenList.length) = some 1 := by decide

/-! ## Claim C3 -/

/-- C3, amended: a single file as root is scanned like a directory whose
listing fails: the returned Node has `is_dir = true`, `children = Some([])`
and `size = 0` (in both modes), not a file Node carrying the file length. -/
theorem disksense_c3_file_root (name cpath : String) (len : Nat) (d : Option Nat)
    (o : Option ScanOptions) :
    scanResult true (some (name, cpath, FS.file len)) d o =
      some (DiskItem.mk name cpath 0 true (some [])) := by
  rw [scanResult_eq]
  by_cases hm : (o.getD { fast_mode := true, skip_hidden := true }).fast_mode
  · rw [if_pos hm]
    rfl
  · rw [if_neg hm]
    rfl

/-- C3, counterexample: scanning a 5-byte file as root returns a Node with
`is_dir = true`, where the claim requires `is_dir = false`, `children`
absent and `size = 5`. -/
theorem disksense_c3_counterexample :
    (scanResult true (some ("f", "/f", FS.file 5)) none none).map DiskItem.is_dir
      = some true := by decide

/-! ## Claim C4 -/

/-- C4, confirmed: every Node of a returned tree, in either mode, has its
children sequence (when present) sorted by `size` descending. -/
theorem disksense_c4_sort_order (pe : Bool) (canon : Option (String × String × FS))
    (d : Option Nat) (o : Option ScanOptions) (t : DiskItem)
    (h : scanResult pe canon d o = some t) : AllSorted t := by
  cases pe with
  | false =>
    rw [scanResult_not_exists] at h
    exact absurd h (by simp)
  | true =>
    cases canon with
    | none =>
      rw [scanResult_no_canon] at h
      exact absurd h (by simp)
    | some rt =>
      obtain ⟨name, cpath, fs⟩ := rt
      rw [scanResult_eq] at h
      by_cases hm : (o.getD { fast_mode := true, skip_hidden := true }).fast_mode
      · rw [if_pos hm] at h
        injection h with h
        subst h
        exact (fastScan_spec name cpath fs _ _ _ 0).2.1
      · rw [if_neg hm] at h
        injection h with h
        subst h
        exact (compScan_spec name cpath fs _ _ _ 0).2.1

/-- Witness for C4 at the flat-directory scenario. -/
theorem disksense_c4_sort_order_witness :
    scanResult true (some ("flat", "/tmp/flat", flatFS)) (some 1) none =
        some ((fastScan "flat" "/tmp/flat" flatFS 1 (estimateItemCount flatFS 1)
          { fast_mode := true, skip_hidden := true } 0).1) ∧
      AllSorted ((fastScan "flat" "/tmp/flat" flatFS 1 (estimateItemCount flatFS 1)
        { fast_mode := true, skip_hidden := true } 0).1) :=
  ⟨rfl, disksense_c4_sort_order true (some ("flat", "/tmp/flat", flatFS)) (some 1) none _ rfl⟩

/-! ## Claim C7 -/

/-- C7, amended: `scan` fails iff the root does not exist or cannot be
canonicalized; a root that exists and canonicalizes but cannot be listed
yields success with an empty-children, size-0 node; when the root does
not exist (or canonicalization fails) no progress event is emitted;
per-entry failures (modelled by unlistable subtrees) never fail the call. -/
theorem disksense_c7_error_conditions (pe : Bool)
    (canon : Option (String × String × FS)) (d : Option Nat)
    (o : Option ScanOptions) :
    (scanDirectory pe canon d o).1.isOk = (pe && canon.isSome) ∧
      (scanDirectory false canon d o).2 = [] ∧
      (scanDirectory pe none d o).2 = [] ∧
      ∀ (name cpath : String) (m : Nat),
        scanResult true (some (name, cpath, FS.unreadable m)) d o =
          some (DiskItem.mk name cpath 0 true (some [])) := by
  refine ⟨?_, ?_, ?_, ?_⟩
  · cases pe with
    | false => rw [scanDirectory_not_exists]; rfl
    | true =>
      cases canon with
      | none => rw [scanDirectory_no_canon]; rfl
      | some rt =>
        obtain ⟨name, cpath, fs⟩ := rt
        rw [scanDirectory_eq]
        rfl
  · rw [scanDirectory_not_exists]
  · rw [scanDirectory_no_canon]
    cases pe <;> rfl
  · intro name cpath m
    rw [scanResult_eq]
    by_cases hm : (o.getD { fast_mode := true, skip_hidden := true }).fast_mode
    · rw [if_pos hm]
      rfl
    · rw [if_neg hm]
      rfl

/-- Witness for C7 at a concrete inaccessible-root scan. -/
theorem disksense_c7_error_conditions_witness :
    (scanDirectory true (some ("r", "/r", FS.dir 0 [("u", FS.unreadable 7)])) none none).1.isOk
        = (true && (some ("r", "/r", FS.dir 0 [("u", FS.unreadable 7)])).isSome) ∧
      scanResult true (some ("u", "/u", FS.unreadable 3)) none none =
        some (DiskItem.mk "u" "/u" 0 true (some [])) :=
  ⟨(disksense_c7_error_conditions true (some ("r", "/r", FS.dir 0 [("u", FS.unreadable 7)])) none none).1,
   (disksense_c7_error_conditions true (some ("u", "/u", FS.unreadable 3)) none none).2.2.2 "u" "/u" 3⟩

/-- C7, counterexample: a root that exists and canonicalizes to a
directory whose listing fails (`PathInaccessible` per the claim) still
returns `Ok` — the claimed "error iff … the root directory cannot be
listed" direction is false. -/
theorem disksense_c7_counterexample :
    (scanDirectory true (some ("r", "/r", FS.unreadable 0)) none none).1.isOk = true := by
  decide

/-! ## Claim C2 -/

/-- C2, confirmed: in comprehensive mode every directory Node with a
non-empty children sequence has `size` equal to the sum of its children's
sizes, and an entry cut off by a zero depth budget is returned as a leaf
directory Node carrying the exact recursive byte total of its subtree
(when that subtree is fully listable, so that `get_size` succeeds). -/
theorem disksense_c2_size_consistency :
    (∀ (name cpath : String) (fs : FS) (d : Option Nat) (o : ScanOptions),
        o.fast_mode = false → ∀ t : DiskItem,
        scanResult true (some (name, cpath, fs)) d (some o) = some t → SumOK t) ∧
      (∀ (name dirPath : String) (m : Nat) (es : List (String × FS)) (total : Nat)
          (opts : ScanOptions) (c : Nat) (n : String) (f : FS), (n, f) ∈ es →
          (opts.skip_hidden && hiddenName n) = false → f.isDir = true →
          readableTree f = true →
          DiskItem.mk n (pathJoin dirPath n) (subtreeTotal f) true (some []) ∈
            (comprehensiveScan name dirPath (.dir m es) 0 total opts c).1.childrenList) := by
  constructor
  · intro name cpath fs d o hm t h
    rw [scanResult_eq] at h
    rw [if_neg (by simp [hm])] at h
    injection h with h
    subst h
    exact (compScan_spec name cpath fs _ _ _ 0).2.2.2
  · intro name dirPath m es total opts c n f hmem hh hdir hr
    have hsz : getSizeD f = subtreeTotal f := by
      rw [getSizeD, if_pos hr]
    rw [← hsz]
    exact compScan_depth0_mem name dirPath m es total opts c n f hmem hh hdir

/-- Witness for C2: a two-level directory scanned comprehensively, and a
depth-0 leaf carrying the exact subtree total. -/
theorem disksense_c2_size_consistency_witness :
    (optsComp.fast_mode = false ∧
      scanResult true (some ("r", "/r", FS.dir 0 [("a", FS.file 3), ("dd", FS.dir 0 [("x", FS.file 7)])]))
          (some 2) (some optsComp) =
        some ((comprehensiveScan "r" "/r"
          (FS.dir 0 [("a", FS.file 3), ("dd", FS.dir 0 [("x", FS.file 7)])]) 2
          (estimateItemCount (FS.dir 0 [("a", FS.file 3), ("dd", FS.dir 0 [("x", FS.file 7)])]) 2)
          optsComp 0).1)) ∧
      SumOK ((comprehensiveScan "r" "/r"
        (FS.dir 0 [("a", FS.file 3), ("dd", FS.dir 0 [("x", FS.file 7)])]) 2
        (estimateItemCount (FS.dir 0 [("a", FS.file 3), ("dd", FS.dir 0 [("x", FS.file 7)])]) 2)
        optsComp 0).1) ∧
    DiskItem.mk "dd" (pathJoin "/r" "dd") (subtreeTotal (FS.dir 0 [("x", FS.file 7)])) true (some []) ∈
      (comprehensiveScan "r" "/r" (FS.dir 0 [("a", FS.file 3), ("dd", FS.dir 0 [("x", FS.file 7)])]) 0 9
        optsComp 0).1.childrenList :=
  ⟨⟨rfl, rfl⟩,
   disksense_c2_size_consistency.1 "r" "/r"
     (FS.dir 0 [("a", FS.file 3), ("dd", FS.dir 0 [("x", FS.file 7)])]) (some 2) optsComp rfl _ rfl,
   disksense_c2_size_consistency.2 "r" "/r" 0
     [("a", FS.file 3), ("dd", FS.dir 0 [("x", FS.file 7)])] 9 optsComp 0 "dd"
     (FS.dir 0 [("x", FS.file 7)])
     (List.mem_cons_of_mem _ (List.mem_cons_self _ _)) (by decide) rfl (by decide)⟩

/-! ## Claim C9 -/

/-- C9, amended: the invariant `used_space = total_space − available_space`
(saturating) holds for every volume the Windows probe returns, and
`used + available = total` whenever `available ≤ total`.  The Unix probe
does not satisfy it (see the counterexample): there `used_space` and
`available_space` come from `df`'s Used/Available columns ×1024 and
`total_space` from the mount point's metadata length. -/
theorem disksense_c9_windows_volume_math (probes : List WinDriveProbe) :
    ∀ dr ∈ getWindowsDrives probes,
      dr.used_space = dr.total_space - dr.available_space ∧
        (dr.available_space ≤ dr.total_space →
          dr.used_space + dr.available_space = dr.total_space) := by
  intro dr hdr
  simp only [getWindowsDrives, List.mem_filterMap] at hdr
  obtain ⟨p, _, hfp⟩ := hdr
  split at hfp
  · exact absurd hfp (by simp)
  · split at hfp
    · exact absurd hfp (by simp)
    · split at hfp
      · exact absurd hfp (by simp)
      · split at hfp
        · exact absurd hfp (by simp)
        · rename_i avail total free heq
          split at hfp
          · injection hfp with hfp
            subst hfp
            refine ⟨rfl, ?_⟩
            intro hle
            dsimp only at hle ⊢
            omega
          · exact absurd hfp (by simp)

/-- The Windows probe outcome used by the C9 witness: `C:\` exists, is a
directory, and the API reports 400 bytes available of 1000 total. -/
theorem disksense_c9_windows_witness :
    (DriveInfo.mk "Drive C" "C:\\" 1000 400 600) ∈
        getWindowsDrives [⟨'C', true, true, false, some (400, 1000, 400)⟩] ∧
      (DriveInfo.mk "Drive C" "C:\\" 1000 400 600).used_space =
        (DriveInfo.mk "Drive C" "C:\\" 1000 400 600).total_space -
          (DriveInfo.mk "Drive C" "C:\\" 1000 400 600).available_space ∧
      ((DriveInfo.mk "Drive C" "C:\\" 1000 400 600).available_space ≤
          (DriveInfo.mk "Drive C" "C:\\" 1000 400 600).total_space →
        (DriveInfo.mk "Drive C" "C:\\" 1000 400 600).used_space +
            (DriveInfo.mk "Drive C" "C:\\" 1000 400 600).available_space =
          (DriveInfo.mk "Drive C" "C:\\" 1000 400 600).total_space) :=
  ⟨by decide,
   disksense_c9_windows_volume_math [⟨'C', true, true, false, some (400, 1000, 400)⟩]
     (DriveInfo.mk "Drive C" "C:\\" 1000 400 600) (by decide)⟩

/-- C9, counterexample: for the `df -k` line
`/dev/sda1 1048576 524288 524288 50% /` with mount-point metadata length
4096, the Unix probe reports `used_space = 536870912` while
`total_space − available_space` saturates to 0 — the claimed identity
fails on the volume probe actually compiled on Unix targets. -/
theorem disksense_c9_counterexample :
    getUnixDrives dfOut dfMeta = [sdaDrive] ∧
      sdaDrive.used_space ≠ sdaDrive.total_space - sdaDrive.available_space :=
  ⟨by decide, by decide⟩

/-! ## Claim C10 -/

/-- C10, confirmed: scanned comprehensively with `skip_hidden = true` and
depth 1, the two directories `d1` (expanded at depth 1) and `d2` (a
depth-0 leaf inside `e`) have identical contents (`dContents`, total 11
bytes of which 10 are hidden) yet report sizes 1 and 11: the expanded
node's size excludes hidden bytes, the leaf's `get_size` total includes
them. -/
theorem disksense_c10_hidden_size_divergence :
    sizesNamed (comprehensiveScan "r" "/r" c10FS 1 10 optsComp 0).1 "d1" = [1] ∧
      sizesNamed (comprehensiveScan "r" "/r" c10FS 1 10 optsComp 0).1 "d2" = [11] ∧
      subtreeTotal (FS.dir 0 dContents) = 11 :=
  ⟨by decide, by decide, by decide⟩

/-! ## Claim C8 -/

/-- C8, amended: in fast mode a subdirectory classified large is returned
as an estimated-size Node with empty children only when more than one
level of depth remains (`max_depth > 1` at its parent); at `max_depth = 1`
a large subdirectory is scanned like any other (see the counterexample),
and at `max_depth = 0` every subdirectory becomes an estimated leaf
regardless of the probe. -/
theorem disksense_c8_large_estimate (name dirPath : String) (m : Nat)
    (es : List (String × FS)) (maxDepth total : Nat) (opts : ScanOptions) (c : Nat)
    (n : String) (f : FS) (hmem : (n, f) ∈ es)
    (hh : (opts.skip_hidden && hiddenName n) = false) (hdir : f.isDir = true)
    (hfm : opts.fast_mode = true) (hlg : isLargeDirectory f = true)
    (hdep : 1 < maxDepth) :
    DiskItem.mk n (pathJoin dirPath n) (estimateDirSize f) true (some []) ∈
      (fastScan name dirPath (.dir m es) maxDepth total opts c).1.childrenList :=
  fastScan_large_mem name dirPath m es maxDepth total opts c n f hmem hh hdir hfm hlg hdep

/-- Witness for C8: a 1000-entry directory under a root scanned with
depth 2 short-circuits to an estimated leaf. -/
theorem disksense_c8_large_estimate_witness :
    ("big", bigFS) ∈ [("big", bigFS)] ∧
      (optsFast.skip_hidden && hiddenName "big") = false ∧
      bigFS.isDir = true ∧ optsFast.fast_mode = true ∧
      isLargeDirectory bigFS = true ∧ 1 < 2 ∧
      DiskItem.mk "big" (pathJoin "/r" "big") (estimateDirSize bigFS) true (some []) ∈
        (fastScan "r" "/r" (FS.dir 0 [("big", bigFS)]) 2 5003 optsFast 0).1.childrenList := by
  have hlg : isLargeDirectory bigFS = true := by
    have h0 : isLargeDirectory bigFS =
        decide (1000 ≤ (List.replicate 1000 ("f", FS.file 1)).length) := rfl
    rw [h0, List.length_replicate]
    rfl
  exact ⟨List.mem_cons_self _ _, by decide, rfl, rfl, hlg, by omega,
    disksense_c8_large_estimate "r" "/r" 0 [("big", bigFS)] 2 5003 optsFast 0 "big" bigFS
      (List.mem_cons_self _ _) (by decide) rfl rfl hlg (by omega)⟩

theorem fastFiles_repl_len (p : String) (total : Nat) :
    ∀ (k c : Nat),
      (fastFiles p total optsFast (List.replicate k ("f", FS.file 1)) c).1.length = k := by
  intro k
  induction k with
  | zero => intro c; rfl
  | succ k ih =>
    intro c
    rw [List.replicate_succ]
    have h1 : (optsFast.skip_hidden && hiddenName "f") = false := by decide
    have h2 : (FS.file 1).isFile = true := rfl
    simp only [fastFiles, h1, h2, Bool.false_eq_true, if_false, if_true, List.length_cons]
    rw [ih (c + 1)]

theorem fastLeaves_repl (p : String) (total : Nat) :
    ∀ (k c : Nat),
      fastLeaves p total optsFast (List.replicate k ("f", FS.file 1)) c = ([], c, []) := by
  intro k
  induction k with
  | zero => intro c; rfl
  | succ k ih =>
    intro c
    rw [List.replicate_succ]
    have h1 : (!(FS.file 1).isDir) = true := rfl
    simp only [fastLeaves, h1, if_true]
    exact ih c

theorem fastScan_repl_children_len (k total c : Nat) :
    (fastScan "big" (pathJoin "/r" "big")
      (FS.dir 0 (List.replicate k ("f", FS.file 1))) 0 total optsFast c).1.childrenList.length
      = k := by
  simp only [fastScan]
  rw [if_neg (lt_irrefl 0), DiskItem.childrenList_mk_some]
  rw [fastLeaves_repl]
  rw [length_sortBySizeDesc, List.append_nil, fastFiles_repl_len]

theorem sortBySizeDesc_singleton (x : DiskItem) : sortBySizeDesc [x] = [x] := rfl

theorem fastScan_repl_parent (k : Nat) :
    ((fastScan "r" "/r" (FS.dir 0 [("big", FS.dir 0 (List.replicate k ("f", FS.file 1)))])
        1 5002 optsFast 0).1.childrenList.map
      (fun x => x.childrenList.length)) = [k] := by
  have h2 : (!(FS.dir 0 (List.replicate k ("f", FS.file 1))).isDir) = false := rfl
  have h1 : (optsFast.skip_hidden && hiddenName "big") = false := by decide
  have h3 : (optsFast.fast_mode &&
      isLargeDirectory (FS.dir 0 (List.replicate k ("f", FS.file 1))) &&
      decide (1 < 1)) = false := by
    rw [show (decide ((1:Nat) < 1)) = false from rfl, Bool.and_false]
  have hif : (FS.dir 0 (List.replicate k ("f", FS.file 1))).isFile = false := rfl
  have hf : fastFiles "/r" 5002 optsFast
      [("big", FS.dir 0 (List.replicate k ("f", FS.file 1)))] 0 = ([], 0, []) := by
    simp only [fastFiles, h1, hif, Bool.false_eq_true, if_false]
  simp only [fastScan]
  rw [if_pos Nat.zero_lt_one, hf, DiskItem.childrenList_mk_some]
  simp only [fastDirs, h2, h1, h3, Bool.false_eq_true, if_false]
  simp only [List.nil_append, sortBySizeDesc_singleton, List.map_cons, List.map_nil]
  rw [fastScan_repl_children_len]

/-- C8, counterexample: the same 1000-entry large directory at remaining
depth 1 (its parent scanned with `depth = 1` in fast mode) is *not*
short-circuited: the returned child Node carries all 1000 file children,
not the empty children sequence the claim requires. -/
theorem disksense_c8_counterexample :
    ((fastScan "r" "/r" bigParentFS 1 5002 optsFast 0).1.childrenList.map
      (fun x => x.childrenList.length)) = [1000] :=
  fastScan_repl_parent 1000

/-! ## Claim C5 -/

theorem chainLeB_iff : ∀ l : List Nat, chainLeB l = true ↔ l.Chain' (· ≤ ·)
  | [] => by simp [chainLeB]
  | [a] => by simp [chainLeB]
  | a :: b :: t => by
    rw [chainLeB, Bool.and_eq_true, decide_eq_true_eq, List.chain'_cons,
      chainLeB_iff (b :: t)]

theorem trace_shape (cpath : String) (total c2 : Nat) (walk : List ScanProgress)
    (h : TraceOK 0 c2 total walk) :
    ((mkProgress cpath 0 total :: walk ++ [mkProgress cpath total total]).dropLast.map
        ScanProgress.processed_items).Chain' (· ≤ ·) ∧
      (∀ e ∈ mkProgress cpath 0 total :: walk ++ [mkProgress cpath total total],
        e.total_items = total) ∧
      (mkProgress cpath 0 total :: walk ++ [mkProgress cpath total total]).getLast? =
        some (mkProgress cpath total total) := by
  obtain ⟨_, hch, he⟩ := h
  have hsplit : mkProgress cpath 0 total :: walk ++ [mkProgress cpath total total]
      = (mkProgress cpath 0 total :: walk) ++ [mkProgress cpath total total] := rfl
  refine ⟨?_, ?_, ?_⟩
  · rw [hsplit, List.dropLast_concat, List.map_cons]
    apply List.chain'_cons'.mpr
    constructor
    · intro y _
      rw [mkProgress_processed]
      exact Nat.zero_le _
    · exact hch.imp (fun a b hab => le_of_lt hab)
  · intro e hee
    rcases List.mem_cons.mp hee with rfl | hee
    · exact mkProgress_total _ _ _
    · rcases List.mem_append.mp hee with hh | hh
      · exact (he e hh).2.2.1
      · rw [List.mem_singleton] at hh
        subst hh
        exact mkProgress_total _ _ _
  · rw [hsplit, List.getLast?_concat]

/-- C5, amended: within a single scan call the initial emission and all
walk emissions carry non-decreasing (indeed, strictly increasing after
the initial 0) `processed_items`; `total_items` is the same pre-computed
estimate in every emission; and the final emission has
`processed_items = total_items`.  The final emission, however, may carry
a *smaller* processed count than the last walk emission when the
estimate undercounts (see the counterexample), so the full consecutive
sequence is not non-decreasing. -/
theorem disksense_c5_progress (name cpath : String) (fs : FS) (d : Option Nat)
    (o : Option ScanOptions) :
    ((scanTrace true (some (name, cpath, fs)) d o).dropLast.map
        ScanProgress.processed_items).Chain' (· ≤ ·) ∧
      (∀ e ∈ scanTrace true (some (name, cpath, fs)) d o,
        e.total_items = estimateItemCount fs (d.getD 2)) ∧
      (scanTrace true (some (name, cpath, fs)) d o).getLast? =
        some (mkProgress cpath (estimateItemCount fs (d.getD 2))
          (estimateItemCount fs (d.getD 2))) := by
  rw [scanTrace_eq]
  by_cases hm : (o.getD { fast_mode := true, skip_hidden := true }).fast_mode
  · rw [if_pos hm]
    exact trace_shape cpath (estimateItemCount fs (d.getD 2)) _ _
      (fastScan_spec name cpath fs (d.getD 2) (estimateItemCount fs (d.getD 2))
        (o.getD { fast_mode := true, skip_hidden := true }) 0).1
  · rw [if_neg hm]
    exact trace_shape cpath (estimateItemCount fs (d.getD 2)) _ _
      (compScan_spec name cpath fs (d.getD 2) (estimateItemCount fs (d.getD 2))
        (o.getD { fast_mode := true, skip_hidden := true }) 0).1

/-- Witness for C5 at the flat-directory scenario: the final emission is
`processed = total = estimate`. -/
theorem disksense_c5_progress_witness :
    (scanTrace true (some ("flat", "/flat", flatFS)) (some 1) none).getLast? =
      some (mkProgress "/flat" (estimateItemCount flatFS ((some 1).getD 2))
        (estimateItemCount flatFS ((some 1).getD 2))) :=
  (disksense_c5_progress "flat" "/flat" flatFS (some 1) none).2.2

/-- C5, counterexample: scanning `chainFS` with depth 3 (fast mode, the
defaults) emits processed counts `0,1,…,8` and then the mandatory final
emission with `processed = total = 4 < 8`: the consecutive emissions of
this call are *not* non-decreasing, because the pre-computed estimate
undercounted and the final emission is forced down to it. -/
theorem disksense_c5_counterexample :
    ¬ ((scanTrace true (some ("r", "/r", chainFS)) (some 3) none).map
        ScanProgress.processed_items).Chain' (· ≤ ·) := by
  intro h
  have hb : chainLeB ((scanTrace true (some ("r", "/r", chainFS)) (some 3) none).map
      ScanProgress.processed_items) = false := by decide
  have ht := (chainLeB_iff ((scanTrace true (some ("r", "/r", chainFS)) (some 3) none).map
      ScanProgress.processed_items)).mpr h
  rw [ht] at hb
  exact absurd hb (by simp)

/-! ## Claim C6 -/

/-- C6, amended: every emitted event's `percent` is the *raw* ratio
`processed / total * 100` (0 when `total = 0`) with no clamping; when the
walk processes more entries than the estimate, percent exceeds 100. -/
theorem disksense_c6_percent_unclamped (pe : Bool)
    (canon : Option (String × String × FS)) (d : Option Nat)
    (o : Option ScanOptions) :
    ∀ e ∈ scanTrace pe canon d o,
      e.percent = rawPercent e.processed_items e.total_items :=
  scanTrace_percent_raw pe canon d o

/-- Witness for C6: the initial emission of the flat-directory scan. -/
theorem disksense_c6_percent_unclamped_witness :
    mkProgress "/flat" 0 (estimateItemCount flatFS ((some 1).getD 2)) ∈
        scanTrace true (some ("flat", "/flat", flatFS)) (some 1) none ∧
      (mkProgress "/flat" 0 (estimateItemCount flatFS ((some 1).getD 2))).percent =
        rawPercent
          (mkProgress "/flat" 0 (estimateItemCount flatFS ((some 1).getD 2))).processed_items
          (mkProgress "/flat" 0 (estimateItemCount flatFS ((some 1).getD 2))).total_items := by
  have hmem : mkProgress "/flat" 0 (estimateItemCount flatFS ((some 1).getD 2)) ∈
      scanTrace true (some ("flat", "/flat", flatFS)) (some 1) none := by
    rw [scanTrace_eq]
    exact List.mem_cons_self _ _
  exact ⟨hmem, disksense_c6_percent_unclamped true _ (some 1) none _ hmem⟩

/-- C6, counterexample: in the `chainFS` scan the event with
`processed = 8`, `total = 4` carries `percent = 200`, while the claimed
clamped value is 100 — the claim's "clamped to [0, 100]" is false. -/
theorem disksense_c6_counterexample :
    ¬ (∀ e ∈ scanTrace true (some ("r", "/r", chainFS)) (some 3) none,
        e.percent = clampedPercent e.processed_items e.total_items) := by
  intro h
  have hex : ∃ e ∈ scanTrace true (some ("r", "/r", chainFS)) (some 3) none,
      e.processed_items = 8 ∧ e.total_items = 4 := by decide
  obtain ⟨e, hmem, hp, ht⟩ := hex
  have hc := h _ hmem
  have hr := scanTrace_percent_raw true (some ("r", "/r", chainFS)) (some 3) none _ hmem
  rw [hp, ht] at hc hr
  rw [hr] at hc
  have h200 : rawPercent 8 4 = 200 := by norm_num [rawPercent]
  have h100 : clampedPercent 8 4 = 100 := by
    rw [clampedPercent]
    norm_num
  rw [h200, h100] at hc
  exact absurd hc (by norm_num)
